import Mathlib

/-!
Verification development for the titan-kernel dependency-injection engine.

The definitions below are a shallow embedding of the TypeScript sources:

* `src/core/container.ts`   — `DIContainer` (`register`, `resolve`,
  `resolveDependencies`, `hasCircularDependency`, `getAllServices`,
  `getModules`)
* `src/core/lazy-proxy.ts`  — `LazyProxy`
* `src/core/forward-ref.ts` — `forwardRef`, `isForwardRef`
* `src/decorators/module.ts`— the `Module` class decorator

Modelling conventions:

* A class (a JS constructor function) is identified by a natural number.
  Identity is the number itself, mirroring JS reference identity of the
  constructor object; the class's `name` property is a separate `String`.
* `reflect-metadata` data (`design:paramtypes`, `self:paramtypes`) is fixed
  at class-declaration time and never mutated by the engine, so it lives in
  a static environment `Env` rather than in the container state.
* A `forwardRef` token wraps a thunk `() => Class`.  The thunk is a pure
  closure over a class binding, so it is modelled by the identity it
  returns; "the thunk is not invoked during construction" shows up as the
  fact that resolving the holder neither reads the registry entry of the
  referenced identity nor constructs it.
* JS `Map` is modelled by an association list with `Map.set` semantics
  (in-place overwrite of an existing key, append otherwise); `values()`
  enumerates in insertion order, as the list does.
* Heap references are allocation numbers drawn from a counter in the state;
  reference equality is equality of those numbers.
* `new target(...)` may throw in JS (the constructor is opaque client
  code); the flag `ctorThrows` in `ClassInfo` models a constructor that
  fails.  Constructors are otherwise modelled as recording their argument
  list, which is all `DIContainer` observes of them.
* Recursion in `resolve` is made total with an explicit fuel parameter;
  running out of fuel models the unbounded recursion / stack overflow the
  JS engine would hit, and is a distinguished error `Err.fuelOut`.
* Every instance stored by the engine is a JS object and JS objects are
  truthy, so the `if (!target._instance)` test in `LazyProxy` is modelled
  as the check that the memo field is still empty.
-/

namespace Titan

/-! ### Association-list maps with JS `Map` semantics -/

def mapGet {α β : Type} [DecidableEq α] : List (α × β) → α → Option β
  | [], _ => none
  | (k₁, v₁) :: rest, k => if k₁ = k then some v₁ else mapGet rest k

def mapSet {α β : Type} [DecidableEq α] (k : α) (v : β) : List (α × β) → List (α × β)
  | [] => [(k, v)]
  | (k₁, v₁) :: rest => if k₁ = k then (k, v) :: rest else (k₁, v₁) :: mapSet k v rest

/-! ### Dependency tokens and static class metadata -/

/-- A dependency token: either a plain class (a constructor reference) or a
`forwardRef` wrapper `{ __forward_ref__: true, forwardRef: thunk }`, the
thunk being represented by the class identity it returns. -/
inductive Token where
  | cls : Nat → Token
  | fwd : Nat → Token
deriving DecidableEq, Repr

/-- `forwardRef(() => C)` from `src/core/forward-ref.ts`. -/
def forwardRef (c : Nat) : Token := Token.fwd c

/-- `isForwardRef` from `src/core/forward-ref.ts`. -/
def isForwardRef : Token → Bool
  | .fwd _ => true
  | .cls _ => false

/-- Per-class reflection data, fixed at declaration time.
`paramTypes` is `design:paramtypes` (one entry per constructor parameter),
`paramDecorators` is `self:paramtypes` (the sparse array written by
`@Inject`; `none` where no decorator was applied).  `ctorThrows` models
whether `new target(...)` throws. -/
structure ClassInfo where
  name : String
  paramTypes : List Token
  paramDecorators : List (Option Token)
  ctorThrows : Bool
deriving DecidableEq, Repr

/-- The static environment: reflection metadata of every class. -/
def Env : Type := Nat → ClassInfo

/-! ### Registration metadata (the Registry) -/

/-- `ServiceType` from `src/core/types.ts`. -/
inductive ServiceType where
  | injectable
  | controller
  | gateway
  | module
  | component
deriving DecidableEq, Repr

/-- `ModuleMetadata` from `src/core/types.ts`; absent arrays are `[]`. -/
structure ModuleMetadata where
  (providers imports exports controllers gateways : List Nat)
deriving DecidableEq, Repr

/-- The opaque `options` payload passed to `register`. -/
inductive Options where
  | nothing
  | modMeta : ModuleMetadata → Options
  | payload : Nat → Options
deriving DecidableEq, Repr

/-- `ServiceMetadata` from `src/core/types.ts`. -/
structure ServiceMetadata where
  type : ServiceType
  target : Nat
  options : Options
deriving DecidableEq, Repr

/-! ### Heap values -/

/-- A constructor argument as stored in an instance: either a plain object
reference or a `LazyProxy` reference. -/
inductive Slot where
  | obj : Nat → Slot
  | proxy : Nat → Slot
deriving DecidableEq, Repr

/-- Whether a stored constructor argument is a `LazyProxy` reference. -/
def Slot.isLazy : Slot → Bool
  | .proxy _ => true
  | .obj _ => false

/-- The content of a constructed instance: its class and the argument list
it was constructed with. -/
structure ObjContent where
  cls : Nat
  args : List Slot
deriving DecidableEq, Repr

/-- The content of a `LazyProxy`: the identity its factory resolves
(`() => this.resolve(target)`) and the `_instance` memo field. -/
structure ProxyContent where
  target : Nat
  materialized : Option Nat
deriving DecidableEq, Repr

/-- The mutable state of the `DIContainer` plus the object heap.
`services`, `metadata`, `instances` are the three `Map` fields of
`DIContainer`; `objects` and `proxies` are the heap; `nextAddr` is the
allocator. -/
structure St where
  services : List (String × Nat)
  metadata : List (Nat × ServiceMetadata)
  instances : List (Nat × Nat)
  objects : List (Nat × ObjContent)
  proxies : List (Nat × ProxyContent)
  nextAddr : Nat
deriving DecidableEq, Repr

def emptySt : St := ⟨[], [], [], [], [], 0⟩

/-- Errors thrown by the engine.  `notFound` is
`Service ${target.name} not found. Did you forget to add @Injectable()?`;
`ctorFail` models `new target(...)` throwing; `fuelOut` models unbounded
recursion (stack exhaustion); `badProxy` marks a dangling proxy reference,
which never occurs for proxies created by the engine. -/
inductive Err where
  | notFound : String → Err
  | ctorFail : String → Err
  | fuelOut : Err
  | badProxy : Err
deriving DecidableEq, Repr

instance {ε α : Type} [DecidableEq ε] [DecidableEq α] :
    DecidableEq (Except ε α) := fun x y =>
  match x, y with
  | .ok a, .ok b => decidable_of_iff (a = b) (by simp)
  | .error e, .error f => decidable_of_iff (e = f) (by simp)
  | .ok _, .error _ => isFalse (by simp)
  | .error _, .ok _ => isFalse (by simp)

/-! ### DIContainer operations -/

/-- `DIContainer.register(target, type, options)`. -/
def register (env : Env) (s : St) (target : Nat) (ty : ServiceType)
    (opts : Options) : St :=
  { s with
    metadata := mapSet target ⟨ty, target, opts⟩ s.metadata,
    services := mapSet (env target).name target s.services }

/-- `DIContainer.hasCircularDependency(target, dependency)`: whether the
dependency's own `design:paramtypes` list contains `target`.  (`includes`
compares by reference, so a `forwardRef` entry never matches a class.) -/
def hasCircularDependency (env : Env) (target dependency : Nat) : Bool :=
  (env dependency).paramTypes.contains (Token.cls target)

/-- The wiring strategy chosen for one dependency slot. -/
inductive Strategy where
  | defer : Nat → Strategy
  | eager : Nat → Strategy
deriving DecidableEq, Repr

/-- The branch selection of the `paramTypes.map` callback in
`DIContainer.resolveDependencies`, for one slot: `p` is the
`design:paramtypes` entry, `d` the `self:paramtypes` entry.

* `@Inject` token that is a forward ref → defer behind a `LazyProxy`;
* any other `@Inject` token → resolve it eagerly (note: no cycle check on
  this path in the source);
* forward-ref parameter type → defer;
* inferred parameter type with `hasCircularDependency` → defer;
* otherwise → resolve the inferred type eagerly. -/
def depStrategy (env : Env) (target : Nat) (p : Token) (d : Option Token) :
    Strategy :=
  match d with
  | some (.fwd tid) => .defer tid
  | some (.cls t) => .eager t
  | none =>
    match p with
    | .fwd tid => .defer tid
    | .cls t =>
      if hasCircularDependency env target t then .defer t else .eager t

/-- `DIContainer.resolveDependencies(target)`, parametric in the
resolver: `res` is the `this.resolve` closure (at the recursion budget of
the enclosing call).  Walks `design:paramtypes` together with the sparse
`self:paramtypes` array; a deferred slot allocates a fresh `LazyProxy`,
an eager slot calls the resolver.  A thrown error escapes the `map`
callback immediately, as in JS. -/
def resolveDepsAux (env : Env) (res : Nat → St → St × Except Err Nat)
    (target : Nat) :
    List Token → List (Option Token) → St → St × Except Err (List Slot)
  | [], _, s => (s, .ok [])
  | p :: ps, decs, s =>
    match depStrategy env target p (decs.head?.getD none) with
    | .defer tid =>
      -- new LazyProxy(() => this.resolve(tid))
      let pa := s.nextAddr
      let s₁ : St := { s with proxies := mapSet pa ⟨tid, none⟩ s.proxies,
                              nextAddr := pa + 1 }
      match resolveDepsAux env res target ps decs.tail s₁ with
      | (s₂, .error e) => (s₂, .error e)
      | (s₂, .ok slots) => (s₂, .ok (.proxy pa :: slots))
    | .eager t =>
      -- return this.resolve(t)
      match res t s with
      | (s₁, .error e) => (s₁, .error e)
      | (s₁, .ok a) =>
        match resolveDepsAux env res target ps decs.tail s₁ with
        | (s₂, .error e) => (s₂, .error e)
        | (s₂, .ok slots) => (s₂, .ok (.obj a :: slots))

/-- `DIContainer.resolve(target)`. -/
def resolve (env : Env) : Nat → Nat → St → St × Except Err Nat
  | 0, _, s => (s, .error .fuelOut)
  | fuel + 1, target, s =>
    match mapGet s.instances target with
    | some addr => (s, .ok addr)
    | none =>
      match mapGet s.metadata target with
      | none => (s, .error (.notFound (env target).name))
      | some _ =>
        match resolveDepsAux env (resolve env fuel) target
            (env target).paramTypes (env target).paramDecorators s with
        | (s₁, .error e) => (s₁, .error e)
        | (s₁, .ok slots) =>
          if (env target).ctorThrows then
            (s₁, .error (.ctorFail (env target).name))
          else
            let addr := s₁.nextAddr
            ({ s₁ with
               objects := mapSet addr ⟨target, slots⟩ s₁.objects,
               instances := mapSet target addr s₁.instances,
               nextAddr := addr + 1 }, .ok addr)

/-- `DIContainer.resolveDependencies(target)` at a given recursion
budget. -/
def resolveDeps (env : Env) (fuel : Nat) (target : Nat) :
    List Token → List (Option Token) → St → St × Except Err (List Slot) :=
  resolveDepsAux env (resolve env fuel) target

/-- An operation routed through a `LazyProxy` (the `get`/`set` trap):
if `_instance` is still empty, run the factory `() => this.resolve(target)`
and memoize; then forward to the memoized instance.  If the factory throws,
the memo field is left untouched and the error propagates.  The model
returns the materialized instance reference; forwarding the individual
property read/write to it (and the `_getInstance` escape hatch, which
reads without any other effect) is the part of the trap the claims do not
touch. -/
def touchProxy (env : Env) (fuel : Nat) (pa : Nat) (s : St) :
    St × Except Err Nat :=
  match mapGet s.proxies pa with
  | none => (s, .error .badProxy)
  | some pc =>
    match pc.materialized with
    | some v => (s, .ok v)
    | none =>
      match resolve env fuel pc.target s with
      | (s₁, .ok v) =>
        ({ s₁ with proxies := mapSet pa ⟨pc.target, some v⟩ s₁.proxies },
         .ok v)
      | (s₁, .error e) => (s₁, .error e)

/-- `DIContainer.getAllServices()`: values of the name-keyed `services`
map, in insertion order. -/
def getAllServices (s : St) : List Nat := s.services.map (·.2)

/-- `DIContainer.getModules()`. -/
def getModules (s : St) : List ServiceMetadata :=
  (s.metadata.map (·.2)).filter (fun m => m.type = ServiceType.module)

/-- `DIContainer.getInjectables()`. -/
def getInjectables (s : St) : List ServiceMetadata :=
  (s.metadata.map (·.2)).filter (fun m => m.type = ServiceType.injectable)

/-- The `Module(metadata)` class decorator from `src/decorators/module.ts`:
registers the module itself, then any provider/controller/gateway not
already present among `getAllServices()`.  The `imports` and `exports`
arrays are carried in the metadata but never read. -/
def Module (env : Env) (target : Nat) (md : ModuleMetadata) (s : St) : St :=
  let s₁ := register env s target .module (.modMeta md)
  let s₂ := md.providers.foldl
    (fun st p => if (getAllServices st).contains p then st
                 else register env st p .injectable .nothing) s₁
  let s₃ := md.controllers.foldl
    (fun st c => if (getAllServices st).contains c then st
                 else register env st c .controller .nothing) s₂
  md.gateways.foldl
    (fun st g => if (getAllServices st).contains g then st
                 else register env st g .gateway .nothing) s₃

/-! ### Frame facts about `resolve` -/

/-- What a `resolve` call leaves untouched: it never registers anything,
allocation only moves the counter up, proxies allocated before the call
are not overwritten, and an identity with no registration is never given
an instance-cache entry. -/
structure FrameOK (s s₁ : St) : Prop where
  metadata_eq : s₁.metadata = s.metadata
  services_eq : s₁.services = s.services
  addr_le : s.nextAddr ≤ s₁.nextAddr
  proxies_lt : ∀ pa, pa < s.nextAddr → mapGet s₁.proxies pa = mapGet s.proxies pa
  inst_unreg : ∀ Y, mapGet s.metadata Y = none →
    mapGet s₁.instances Y = mapGet s.instances Y

/-- An identity with no Registration has no cached instance.  This holds
in the fresh container and is preserved by every operation, since
`resolve` caches an instance only after finding the metadata entry. -/
def RegInv (s : St) : Prop :=
  ∀ X, mapGet s.metadata X = none → mapGet s.instances X = none

/-- The identities that `resolveDependencies` would resolve eagerly, slot
by slot — the eager out-edges of the static dependency graph. -/
def eagerList (env : Env) (target : Nat) :
    List Token → List (Option Token) → List Nat
  | [], _ => []
  | p :: ps, decs =>
    (match depStrategy env target p (decs.head?.getD none) with
     | .defer _ => []
     | .eager t => [t]) ++ eagerList env target ps decs.tail

/-- `D` is an eagerly-resolved dependency slot of `T`. -/
def eagerEdge (env : Env) (T D : Nat) : Prop :=
  D ∈ eagerList env T (env T).paramTypes (env T).paramDecorators

/-- Head of a list with a default. -/
def headD : List Nat → Nat → Nat
  | [], d => d
  | x :: _, _ => x

/-- `EChainTo env st T`: the list `st` followed by `T` is a chain of
eager dependency edges — the shape of the call stack during `resolve`. -/
def EChainTo (env : Env) : List Nat → Nat → Prop
  | [], _ => True
  | Y :: rest, T => eagerEdge env Y (headD rest T) ∧ EChainTo env rest T

/-- All identities on the stack are still uncached. -/
def StackOK (st : List Nat) (s : St) : Prop :=
  ∀ Y, Y ∈ st → mapGet s.instances Y = none

/-! ### Concrete scenarios used as witnesses and counterexamples -/

/-- Witness environment: `Config` and `Logger` have no constructor
dependencies, `UserService` depends on both; identity `5` is never
registered. -/
def envW : Env := fun n =>
  match n with
  | 0 => ⟨"Config", [], [], false⟩
  | 1 => ⟨"Logger", [], [], false⟩
  | 2 => ⟨"UserService", [Token.cls 0, Token.cls 1], [], false⟩
  | 3 => ⟨"Broken", [Token.cls 5], [], false⟩
  | _ => ⟨"Ghost", [], [], false⟩

def stW : St :=
  register envW (register envW (register envW (register envW emptySt
    0 .injectable .nothing) 1 .injectable .nothing) 2 .injectable .nothing)
    3 .injectable .nothing

def stW1 : St := (resolve envW 1 0 stW).1

/-- The spec's two-party cycle: `ServiceA(dep: ServiceB)`,
`ServiceB(dep: ServiceA)`, both resolved through inferred parameter
types. -/
def envC1 : Env := fun n =>
  match n with
  | 0 => ⟨"ServiceA", [Token.cls 1], [], false⟩
  | 1 => ⟨"ServiceB", [Token.cls 0], [], false⟩
  | _ => ⟨"Ghost", [], [], false⟩

def stC1 : St :=
  register envC1 (register envC1 emptySt 0 .injectable .nothing)
    1 .injectable .nothing

/-- A mutual cycle in which `ServiceC` names `ServiceD` through an
explicit `@Inject(ServiceD)` token while `ServiceD` infers `ServiceC`. -/
def envC2 : Env := fun n =>
  match n with
  | 0 => ⟨"ServiceC", [Token.cls 1], [some (Token.cls 1)], false⟩
  | 1 => ⟨"ServiceD", [Token.cls 0], [], false⟩
  | _ => ⟨"Ghost", [], [], false⟩

def stC2 : St :=
  register envC2 (register envC2 emptySt 0 .injectable .nothing)
    1 .injectable .nothing

def stC2r : St := (resolve envC2 3 0 stC2).1

/-- Forward-reference scenario: `Holder` names `Later` through
`@Inject(forwardRef(() => Later))`; `Later` starts unregistered. -/
def envC5 : Env := fun n =>
  match n with
  | 0 => ⟨"Holder", [Token.cls 1], [some (Token.fwd 1)], false⟩
  | 1 => ⟨"Later", [], [], false⟩
  | _ => ⟨"Ghost", [], [], false⟩

def stC5 : St := register envC5 emptySt 0 .injectable .nothing

/-- Lazy-proxy scenarios: a handle at address `0` over `resolve(0)`
(class `Thing`, registered), and one over `resolve(5)` (never
registered until later). -/
def envC6 : Env := fun n =>
  match n with
  | 0 => ⟨"Thing", [], [], false⟩
  | _ => ⟨"Missing", [], [], false⟩

def stC6 : St :=
  { register envC6 emptySt 0 .injectable .nothing with
    proxies := [(0, ⟨0, none⟩)], nextAddr := 1 }

def stC6r : St := (resolve envC6 1 0 stC6).1

def stC6m : St := (touchProxy envC6 1 0 stC6).1

def stC10 : St := { emptySt with proxies := [(0, ⟨5, none⟩)], nextAddr := 1 }

def stC10r : St := register envC6 stC10 5 .injectable .nothing

def stC10s : St := (resolve envC6 1 5 stC10r).1

/-- Two modules that import each other, each contributing one provider. -/
def envC7 : Env := fun n =>
  match n with
  | 10 => ⟨"ModuleA", [], [], false⟩
  | 11 => ⟨"ModuleB", [], [], false⟩
  | 12 => ⟨"ServiceFromA", [], [], false⟩
  | 13 => ⟨"ServiceFromB", [], [], false⟩
  | _ => ⟨"Ghost", [], [], false⟩

def mdA : ModuleMetadata := ⟨[12], [11], [], [], []⟩

def mdB : ModuleMetadata := ⟨[13], [10], [], [], []⟩

def stC7 : St := Module envC7 11 mdB (Module envC7 10 mdA emptySt)

/-- Two distinct classes that share the name `DupService`. -/
def envC8 : Env := fun n =>
  match n with
  | 0 => ⟨"DupService", [], [], false⟩
  | 1 => ⟨"DupService", [], [], false⟩
  | _ => ⟨"Ghost", [], [], false⟩

def stC8 : St :=
  register envC8 (register envC8 emptySt 0 .injectable .nothing)
    1 .injectable .nothing

/-! ## Theorems -/

/-! ### Association-list map lemmas -/

@[simp] theorem mapGet_nil {α β : Type} [DecidableEq α] (k : α) :
    mapGet ([] : List (α × β)) k = none := rfl

@[simp] theorem mapGet_mapSet_same {α β : Type} [DecidableEq α]
    (l : List (α × β)) (k : α) (v : β) : mapGet (mapSet k v l) k = some v := by
  induction l with
  | nil => simp [mapGet, mapSet]
  | cons hd tl ih =>
    obtain ⟨k₁, v₁⟩ := hd
    by_cases h : k₁ = k <;> simp [mapGet, mapSet, h, ih]

@[simp] theorem mapGet_mapSet_ne {α β : Type} [DecidableEq α]
    (l : List (α × β)) {k k' : α} (v : β) (h : k' ≠ k) :
    mapGet (mapSet k v l) k' = mapGet l k' := by
  have h' : ¬ (k = k') := fun hh => h hh.symm
  induction l with
  | nil => simp [mapGet, mapSet, h']
  | cons hd tl ih =>
    obtain ⟨k₁, v₁⟩ := hd
    by_cases h₁ : k₁ = k
    · subst h₁
      simp [mapGet, mapSet, h']
    · by_cases h₂ : k₁ = k'
      · subst h₂; simp [mapGet, mapSet, h₁, h]
      · simp [mapGet, mapSet, h₁, h₂, ih]

theorem mapSet_mapSet_same {α β : Type} [DecidableEq α]
    (l : List (α × β)) (k : α) (v w : β) :
    mapSet k w (mapSet k v l) = mapSet k w l := by
  induction l with
  | nil => simp [mapSet]
  | cons hd tl ih =>
    obtain ⟨k₁, v₁⟩ := hd
    by_cases h : k₁ = k <;> simp [mapSet, h, ih]

/-! ### Frame lemmas -/

theorem frame_refl (s : St) : FrameOK s s :=
  ⟨rfl, rfl, Nat.le_refl _, fun _ _ => rfl, fun _ _ => rfl⟩

theorem frame_trans {s s₁ s₂ : St} (h₁ : FrameOK s s₁) (h₂ : FrameOK s₁ s₂) :
    FrameOK s s₂ := by
  refine ⟨h₂.metadata_eq.trans h₁.metadata_eq,
          h₂.services_eq.trans h₁.services_eq,
          Nat.le_trans h₁.addr_le h₂.addr_le, ?_, ?_⟩
  · intro pa hpa
    rw [h₂.proxies_lt pa (Nat.lt_of_lt_of_le hpa h₁.addr_le), h₁.proxies_lt pa hpa]
  · intro Y hY
    have hY₁ : mapGet s₁.metadata Y = none := by rw [h₁.metadata_eq]; exact hY
    rw [h₂.inst_unreg Y hY₁, h₁.inst_unreg Y hY]

/-- Allocating a proxy only touches `proxies` and `nextAddr`. -/
theorem frame_alloc (s : St) (tid : Nat) :
    FrameOK s { s with proxies := mapSet s.nextAddr ⟨tid, none⟩ s.proxies,
                       nextAddr := s.nextAddr + 1 } := by
  refine ⟨rfl, rfl, Nat.le_succ _, ?_, fun _ _ => rfl⟩
  intro pa hpa
  exact mapGet_mapSet_ne _ _ (Nat.ne_of_lt hpa)

theorem resolveDepsAux_frame (env : Env)
    (res : Nat → St → St × Except Err Nat) (target : Nat)
    (hres : ∀ t s, FrameOK s (res t s).1) :
    ∀ (ps : List Token) (decs : List (Option Token)) (s : St),
      FrameOK s (resolveDepsAux env res target ps decs s).1 := by
  intro ps
  induction ps with
  | nil =>
    intro decs s
    simp only [resolveDepsAux]
    exact frame_refl s
  | cons p ps' ih =>
    intro decs s
    simp only [resolveDepsAux]
    split
    · next tid hst =>
      have h₁ := frame_alloc s tid
      have h₂ := ih decs.tail
        { s with proxies := mapSet s.nextAddr ⟨tid, none⟩ s.proxies,
                 nextAddr := s.nextAddr + 1 }
      split
      · next s₂ e heq => rw [heq] at h₂; exact frame_trans h₁ h₂
      · next s₂ slots heq => rw [heq] at h₂; exact frame_trans h₁ h₂
    · next t hst =>
      have h₁ := hres t s
      split
      · next s₁ e heq => rw [heq] at h₁; exact h₁
      · next s₁ a heq =>
        rw [heq] at h₁
        have h₂ := ih decs.tail s₁
        split
        · next s₂ e heq₂ => rw [heq₂] at h₂; exact frame_trans h₁ h₂
        · next s₂ slots heq₂ => rw [heq₂] at h₂; exact frame_trans h₁ h₂

theorem resolve_frame (env : Env) : ∀ (fuel target : Nat) (s : St),
    FrameOK s (resolve env fuel target s).1 := by
  intro fuel
  induction fuel with
  | zero => intro target s; simp only [resolve]; exact frame_refl s
  | succ f ih =>
    intro target s
    simp only [resolve]
    split
    · exact frame_refl s
    · split
      · exact frame_refl s
      · next hmeta =>
        have hd := resolveDepsAux_frame env (resolve env f) target
          (fun t s₀ => ih t s₀) (env target).paramTypes
          (env target).paramDecorators s
        split
        · next s₁ e heq =>
          rw [heq] at hd
          exact hd
        · next s₁ slots heq =>
          rw [heq] at hd
          split
          · exact hd
          · refine frame_trans hd ⟨rfl, rfl, Nat.le_succ _, fun _ _ => rfl, ?_⟩
            intro Y hY
            have hYt : Y ≠ target := by
              intro hEq
              rw [hd.metadata_eq, hEq] at hY
              simp [hmeta] at hY
            exact mapGet_mapSet_ne _ _ hYt

theorem resolveDeps_frame (env : Env) (fuel target : Nat) (ps : List Token)
    (decs : List (Option Token)) (s : St) :
    FrameOK s (resolveDeps env fuel target ps decs s).1 :=
  resolveDepsAux_frame env (resolve env fuel) target
    (fun t s₀ => resolve_frame env fuel t s₀) ps decs s

/-! ### The registry invariant -/

theorem regInv_empty : RegInv emptySt := fun _ _ => rfl

theorem regInv_register (env : Env) (s : St) (t : Nat) (ty : ServiceType)
    (o : Options) (h : RegInv s) : RegInv (register env s t ty o) := by
  intro X hX
  by_cases hXt : X = t
  · subst hXt
    simp [register] at hX
  · simp only [register] at hX ⊢
    exact h X (by rwa [mapGet_mapSet_ne _ _ hXt] at hX)

theorem regInv_resolve (env : Env) (fuel t : Nat) (s : St) (h : RegInv s) :
    RegInv (resolve env fuel t s).1 := by
  intro X hX
  have hf := resolve_frame env fuel t s
  rw [hf.metadata_eq] at hX
  rw [hf.inst_unreg X hX]
  exact h X hX

theorem regInv_touch (env : Env) (fuel pa : Nat) (s : St) (h : RegInv s) :
    RegInv (touchProxy env fuel pa s).1 := by
  simp only [touchProxy]
  split
  · exact h
  · next pc hpc =>
    split
    · exact h
    · split
      · next s₁ v heq =>
        intro X hX
        have hr := regInv_resolve env fuel pc.target s h
        rw [heq] at hr
        exact hr X hX
      · next s₁ e heq =>
        have hr := regInv_resolve env fuel pc.target s h
        rw [heq] at hr
        exact hr

theorem regInv_Module (env : Env) (t : Nat) (md : ModuleMetadata) (s : St)
    (h : RegInv s) : RegInv (Module env t md s) := by
  have step : ∀ (ty : ServiceType) (l : List Nat) (st : St), RegInv st →
      RegInv (l.foldl (fun st x => if (getAllServices st).contains x then st
        else register env st x ty .nothing) st) := by
    intro ty l
    induction l with
    | nil => intro st hst; exact hst
    | cons hd tl ih =>
      intro st hst
      simp only [List.foldl]
      split
      · exact ih st hst
      · exact ih _ (regInv_register env st hd ty .nothing hst)
  exact step _ _ _ (step _ _ _ (step _ _ _
    (regInv_register env s t .module (.modMeta md) h)))

/-- C1: for registered classes `A(dep : B)` and `B(dep : A)` (each
inferring the other as its single constructor dependency, no `@Inject`
decorators), `resolve A` terminates at recursion depth 1 — the one-level
guard defers the `B` slot behind a `LazyProxy` because `B`'s own
`design:paramtypes` mentions `A` — and returns an instance `a`; touching
`a`'s `B` slot materializes an instance `b` whose own `A` slot, once
touched, yields exactly the reference `a` (and `a`, `b` are distinct
objects). -/
theorem two_party_cycle (env : Env) (s : St) (A B : Nat)
    (mA mB : ServiceMetadata) (hAB : A ≠ B)
    (hA : (env A).paramTypes = [Token.cls B])
    (hdA : (env A).paramDecorators = [])
    (hcA : (env A).ctorThrows = false)
    (hB : (env B).paramTypes = [Token.cls A])
    (hdB : (env B).paramDecorators = [])
    (hcB : (env B).ctorThrows = false)
    (hmA : mapGet s.metadata A = some mA)
    (hmB : mapGet s.metadata B = some mB)
    (hiA : mapGet s.instances A = none)
    (hiB : mapGet s.instances B = none) :
    ∃ pa a pb b,
      (resolve env 1 A s).2 = .ok a ∧
      mapGet (resolve env 1 A s).1.objects a = some ⟨A, [Slot.proxy pa]⟩ ∧
      (touchProxy env 2 pa (resolve env 1 A s).1).2 = .ok b ∧
      mapGet (touchProxy env 2 pa (resolve env 1 A s).1).1.objects b =
        some ⟨B, [Slot.proxy pb]⟩ ∧
      (touchProxy env 1 pb
        (touchProxy env 2 pa (resolve env 1 A s).1).1).2 = .ok a ∧
      a ≠ b := by
  have hBA : B ≠ A := Ne.symm hAB
  refine ⟨s.nextAddr, s.nextAddr + 1, s.nextAddr + 2, s.nextAddr + 3,
    ?_, ?_, ?_, ?_, ?_, by omega⟩ <;>
    simp [resolve, resolveDepsAux, depStrategy,
      hasCircularDependency, touchProxy, hA, hdA, hcA, hB, hdB, hcB,
      hiA, hiB, hmA, hmB, hAB, hBA]

/-- Whenever `resolve` returns an instance, that instance is in the cache
of the resulting state under the requested identity. -/
theorem resolve_ok_cached (env : Env) (n X : Nat) (s s₁ : St) (a : Nat)
    (h : resolve env n X s = (s₁, .ok a)) :
    mapGet s₁.instances X = some a := by
  cases n with
  | zero => simp [resolve] at h
  | succ f =>
    simp only [resolve] at h
    split at h
    · next addr hinst =>
      injection h with h₁ h₂
      injection h₂ with h₂
      subst h₁; subst h₂
      exact hinst
    · split at h
      · exact absurd h (by simp)
      · split at h
        · exact absurd h (by simp)
        · next s₂ slots heq =>
          split at h
          · exact absurd h (by simp)
          · injection h with h₁ h₂
            injection h₂ with h₂
            subst h₁; subst h₂
            simp

/-- Witness for `two_party_cycle`: the concrete `ServiceA`/`ServiceB`
pair of `envC1`. -/
theorem two_party_cycle_witness :
    ((envC1 0).paramTypes = [Token.cls 1] ∧
     (envC1 1).paramTypes = [Token.cls 0] ∧
     mapGet stC1.instances 0 = none ∧ mapGet stC1.instances 1 = none) ∧
    (∃ pa a pb b,
      (resolve envC1 1 0 stC1).2 = .ok a ∧
      mapGet (resolve envC1 1 0 stC1).1.objects a =
        some ⟨0, [Slot.proxy pa]⟩ ∧
      (touchProxy envC1 2 pa (resolve envC1 1 0 stC1).1).2 = .ok b ∧
      mapGet (touchProxy envC1 2 pa (resolve envC1 1 0 stC1).1).1.objects b =
        some ⟨1, [Slot.proxy pb]⟩ ∧
      (touchProxy envC1 1 pb
        (touchProxy envC1 2 pa (resolve envC1 1 0 stC1).1).1).2 = .ok a ∧
      a ≠ b) :=
  ⟨⟨by decide, by decide, by decide, by decide⟩,
   two_party_cycle envC1 stC1 0 1
     ⟨.injectable, 0, .nothing⟩ ⟨.injectable, 1, .nothing⟩
     (by decide) (by decide) (by decide) (by decide) (by decide) (by decide)
     (by decide) (by decide) (by decide) (by decide) (by decide)⟩

/-- C3: resolving an identity with no Registration always throws the
unregistered-service error — it never returns a default or null
instance — and the error is returned synchronously with the container
state unchanged (nothing is cached, nothing retried). -/
theorem resolve_unregistered (env : Env) (n X : Nat) (s : St)
    (hInv : RegInv s) (hMeta : mapGet s.metadata X = none) :
    resolve env (n + 1) X s = (s, .error (.notFound (env X).name)) := by
  have hInst := hInv X hMeta
  simp [resolve, hInst, hMeta]

/-- Witness for `resolve_unregistered`: identity `5` in `stW`. -/
theorem resolve_unregistered_witness :
    (RegInv stW ∧ mapGet stW.metadata 5 = none) ∧
    resolve envW 1 5 stW = (stW, .error (.notFound "Ghost")) :=
  ⟨⟨fun _ _ => rfl, by decide⟩,
   resolve_unregistered envW 0 5 stW (fun _ _ => rfl) (by decide)⟩

/-- C4: singleton scope.  A successful `resolve X` leaves the
constructed instance cached under `X` in the resulting state, and every
later `resolve X` from that state returns that very instance (reference
equality) without constructing anything. -/
theorem resolve_singleton (env : Env) (n X : Nat) (s s₁ : St) (a : Nat)
    (h : resolve env n X s = (s₁, .ok a)) :
    mapGet s₁.instances X = some a ∧
    ∀ m, resolve env (m + 1) X s₁ = (s₁, .ok a) := by
  have hc := resolve_ok_cached env n X s s₁ a h
  exact ⟨hc, fun m => by simp [resolve, hc]⟩

/-- Witness for `resolve_singleton`: `Config` in `stW`. -/
theorem resolve_singleton_witness :
    resolve envW 1 0 stW = (stW1, .ok 0) ∧
    (mapGet stW1.instances 0 = some 0 ∧ resolve envW 1 0 stW1 = (stW1, .ok 0)) :=
  ⟨by decide,
   (resolve_singleton envW 1 0 stW stW1 0 (by decide)).1,
   (resolve_singleton envW 1 0 stW stW1 0 (by decide)).2 0⟩

/-- C2 fails on the code: in `envC2` the slot of `ServiceC` carries the
explicit override token `ServiceD`, and `ServiceD`'s dependency list
contains `ServiceC` — the cycle condition of the claim holds — yet the
slot is resolved eagerly: the constructed `ServiceC` instance holds a
plain object reference to the freshly constructed `ServiceD` instance,
not a Lazy Handle. -/
theorem inject_token_cycle_check_counterexample :
    hasCircularDependency envC2 0 1 = true ∧
    resolve envC2 3 0 stC2 = (stC2r, .ok 2) ∧
    mapGet stC2r.objects 2 = some ⟨0, [Slot.obj 1]⟩ ∧
    (mapGet stC2r.objects 2).map (fun o => o.args.map Slot.isLazy) =
      some [false] := by decide

/-- C2 amended: a non-forward-ref `@Inject` token is used directly as the
identity to resolve, but no cycle check is applied to it — the slot is
resolved eagerly even when the token's own dependency list contains the
identity currently being constructed.  (In this shape the cycle is still
broken one hop later by the inferred-type guard on the other side.) -/
theorem inject_token_resolved_eagerly (env : Env) (s : St) (A B : Nat)
    (mA mB : ServiceMetadata) (hAB : A ≠ B)
    (hA : (env A).paramTypes = [Token.cls B])
    (hdA : (env A).paramDecorators = [some (Token.cls B)])
    (hcA : (env A).ctorThrows = false)
    (hB : (env B).paramTypes = [Token.cls A])
    (hdB : (env B).paramDecorators = [])
    (hcB : (env B).ctorThrows = false)
    (hmA : mapGet s.metadata A = some mA)
    (hmB : mapGet s.metadata B = some mB)
    (hiA : mapGet s.instances A = none)
    (hiB : mapGet s.instances B = none) :
    (resolve env 2 A s).2 = .ok (s.nextAddr + 2) ∧
    mapGet (resolve env 2 A s).1.objects (s.nextAddr + 2) =
      some ⟨A, [Slot.obj (s.nextAddr + 1)]⟩ ∧
    mapGet (resolve env 2 A s).1.instances B = some (s.nextAddr + 1) := by
  have hBA : B ≠ A := Ne.symm hAB
  refine ⟨?_, ?_, ?_⟩ <;>
    simp [resolve, resolveDepsAux, depStrategy,
      hasCircularDependency, hA, hdA, hcA, hB, hdB, hcB,
      hiA, hiB, hmA, hmB, hAB, hBA]

/-- Witness for `inject_token_resolved_eagerly`: the concrete
`ServiceC`/`ServiceD` pair. -/
theorem inject_token_resolved_eagerly_witness :
    ((envC2 0).paramDecorators = [some (Token.cls 1)] ∧
     mapGet stC2.instances 0 = none) ∧
    ((resolve envC2 2 0 stC2).2 = .ok 2 ∧
     mapGet (resolve envC2 2 0 stC2).1.objects 2 =
       some ⟨0, [Slot.obj 1]⟩ ∧
     mapGet (resolve envC2 2 0 stC2).1.instances 1 = some 1) :=
  ⟨⟨by decide, by decide⟩,
   inject_token_resolved_eagerly envC2 stC2 0 1
     ⟨.injectable, 0, .nothing⟩ ⟨.injectable, 1, .nothing⟩
     (by decide) (by decide) (by decide) (by decide) (by decide) (by decide)
     (by decide) (by decide) (by decide) (by decide) (by decide)⟩

/-- C5: a slot declared with `@Inject(forwardRef(() => L))` is filled
with a Lazy Handle whose factory resolves `L`; resolving the holder `H`
succeeds while `L` is still unregistered and leaves `L` both unregistered
and unconstructed; touching the handle while `L` is unregistered throws
the unregistered-service error (at any recursion budget) and leaves the
handle unmaterialized; after `L` is registered, touching the handle
materializes `L`'s singleton instance. -/
theorem forward_ref_defers (env : Env) (s : St) (H L : Nat) (pH : Token)
    (mH : ServiceMetadata) (ty : ServiceType) (o : Options)
    (hHL : H ≠ L)
    (hPT : (env H).paramTypes = [pH])
    (hPD : (env H).paramDecorators = [some (Token.fwd L)])
    (hcH : (env H).ctorThrows = false)
    (hmH : mapGet s.metadata H = some mH)
    (hiH : mapGet s.instances H = none)
    (hmL : mapGet s.metadata L = none)
    (hiL : mapGet s.instances L = none)
    (hpL : (env L).paramTypes = [])
    (hcL : (env L).ctorThrows = false) :
    (resolve env 1 H s).2 = .ok (s.nextAddr + 1) ∧
    mapGet (resolve env 1 H s).1.objects (s.nextAddr + 1) =
      some ⟨H, [Slot.proxy s.nextAddr]⟩ ∧
    mapGet (resolve env 1 H s).1.proxies s.nextAddr = some ⟨L, none⟩ ∧
    mapGet (resolve env 1 H s).1.instances L = none ∧
    mapGet (resolve env 1 H s).1.metadata L = none ∧
    (∀ n, touchProxy env (n + 1) s.nextAddr (resolve env 1 H s).1 =
      ((resolve env 1 H s).1, .error (.notFound (env L).name))) ∧
    (touchProxy env 2 s.nextAddr
        (register env (resolve env 1 H s).1 L ty o)).2 =
      .ok (s.nextAddr + 2) ∧
    mapGet (touchProxy env 2 s.nextAddr
        (register env (resolve env 1 H s).1 L ty o)).1.instances L =
      some (s.nextAddr + 2) ∧
    mapGet (touchProxy env 2 s.nextAddr
        (register env (resolve env 1 H s).1 L ty o)).1.proxies s.nextAddr =
      some ⟨L, some (s.nextAddr + 2)⟩ := by
  have hLH : L ≠ H := Ne.symm hHL
  refine ⟨?_, ?_, ?_, ?_, ?_, fun n => ?_, ?_, ?_, ?_⟩ <;>
    simp [resolve, resolveDepsAux, depStrategy,
      touchProxy, register, hPT, hPD, hcH, hmH, hiH, hmL, hiL, hpL, hcL,
      hHL, hLH]

/-- Witness for `forward_ref_defers`: `Holder`/`Later` of `envC5`. -/
theorem forward_ref_defers_witness :
    (mapGet stC5.metadata 1 = none ∧ mapGet stC5.instances 0 = none) ∧
    ((resolve envC5 1 0 stC5).2 = .ok 1 ∧
     mapGet (resolve envC5 1 0 stC5).1.proxies 0 = some ⟨1, none⟩ ∧
     touchProxy envC5 1 0 (resolve envC5 1 0 stC5).1 =
       ((resolve envC5 1 0 stC5).1, .error (.notFound "Later")) ∧
     (touchProxy envC5 2 0
         (register envC5 (resolve envC5 1 0 stC5).1 1 .injectable .nothing)).2 =
       .ok 2) :=
  ⟨⟨by decide, by decide⟩,
   (forward_ref_defers envC5 stC5 0 1 (Token.cls 1)
      ⟨.injectable, 0, .nothing⟩ .injectable .nothing
      (by decide) (by decide) (by decide) (by decide) (by decide) (by decide)
      (by decide) (by decide) (by decide) (by decide)).1,
   (forward_ref_defers envC5 stC5 0 1 (Token.cls 1)
      ⟨.injectable, 0, .nothing⟩ .injectable .nothing
      (by decide) (by decide) (by decide) (by decide) (by decide) (by decide)
      (by decide) (by decide) (by decide) (by decide)).2.2.1,
   (forward_ref_defers envC5 stC5 0 1 (Token.cls 1)
      ⟨.injectable, 0, .nothing⟩ .injectable .nothing
      (by decide) (by decide) (by decide) (by decide) (by decide) (by decide)
      (by decide) (by decide) (by decide) (by decide)).2.2.2.2.2.1 0,
   (forward_ref_defers envC5 stC5 0 1 (Token.cls 1)
      ⟨.injectable, 0, .nothing⟩ .injectable .nothing
      (by decide) (by decide) (by decide) (by decide) (by decide) (by decide)
      (by decide) (by decide) (by decide) (by decide)).2.2.2.2.2.2.1⟩

/-- C7 fails on the code: composing two modules that import each other
raises no circular-import error, because the `Module` decorator has no
failure path and never reads `imports`.  Composing `ModuleA`
(`imports = [ModuleB]`) and then `ModuleB` (`imports = [ModuleA]`)
registers both modules and both their providers.  The repository's own
README ("Circular module dependencies are detected and prevented")
promises the behaviour the claim describes; the code does not implement
it. -/
theorem module_cycle_not_detected :
    getModules stC7 = [⟨.module, 10, .modMeta mdA⟩, ⟨.module, 11, .modMeta mdB⟩] ∧
    mapGet stC7.metadata 12 = some ⟨.injectable, 12, .nothing⟩ ∧
    mapGet stC7.metadata 13 = some ⟨.injectable, 13, .nothing⟩ := by decide

/-- C8's enumeration clause fails on the code: the two distinct classes
named `DupService` keep separate Registrations in the class-keyed
metadata map, but `getAllServices`, which enumerates the name-keyed
`services` map, surfaces only the most recently registered one — class
`0` is registered yet missing from the enumeration. -/
theorem same_name_enumeration_counterexample :
    mapGet stC8.metadata 0 = some ⟨.injectable, 0, .nothing⟩ ∧
    mapGet stC8.metadata 1 = some ⟨.injectable, 1, .nothing⟩ ∧
    getAllServices stC8 = [1] ∧
    (getAllServices stC8).contains 0 = false := by decide

/-- C8 amended: registrations are keyed by the class itself in the
metadata map, so two same-named distinct classes are never merged there
and each remains individually resolvable; but the `services` map is
keyed by `target.name`, so the `getAllServices` enumeration surfaces only
the later-registered of the two (the earlier one's name entry is
overwritten in place). -/
theorem register_same_name (env : Env) (s : St) (X Y : Nat)
    (tx ty : ServiceType) (ox oy : Options)
    (hXY : X ≠ Y) (hname : (env X).name = (env Y).name)
    (hpX : (env X).paramTypes = []) (hcX : (env X).ctorThrows = false)
    (hpY : (env Y).paramTypes = []) (hcY : (env Y).ctorThrows = false)
    (hiX : mapGet s.instances X = none) (hiY : mapGet s.instances Y = none) :
    mapGet (register env (register env s X tx ox) Y ty oy).metadata X =
      some ⟨tx, X, ox⟩ ∧
    mapGet (register env (register env s X tx ox) Y ty oy).metadata Y =
      some ⟨ty, Y, oy⟩ ∧
    mapGet (register env (register env s X tx ox) Y ty oy).services
      (env X).name = some Y ∧
    (resolve env 1 X (register env (register env s X tx ox) Y ty oy)).2 =
      .ok s.nextAddr ∧
    (resolve env 1 Y
      (resolve env 1 X (register env (register env s X tx ox) Y ty oy)).1).2 =
      .ok (s.nextAddr + 1) := by
  have hYX : Y ≠ X := Ne.symm hXY
  refine ⟨?_, ?_, ?_, ?_, ?_⟩ <;>
    simp [resolve, resolveDepsAux, register, hname, mapSet_mapSet_same,
      hpX, hcX, hpY, hcY, hiX, hiY, hXY, hYX]

/-- Witness for `register_same_name`: the two `DupService` classes. -/
theorem register_same_name_witness :
    ((envC8 0).name = (envC8 1).name ∧ (0 : Nat) ≠ 1) ∧
    (mapGet stC8.metadata 0 = some ⟨.injectable, 0, .nothing⟩ ∧
     mapGet stC8.services "DupService" = some 1 ∧
     (resolve envC8 1 0 stC8).2 = .ok 0) :=
  ⟨⟨by decide, by decide⟩,
   (register_same_name envC8 emptySt 0 1 .injectable .injectable
      .nothing .nothing (by decide) (by decide) (by decide) (by decide)
      (by decide) (by decide) (by decide) (by decide)).1,
   (register_same_name envC8 emptySt 0 1 .injectable .injectable
      .nothing .nothing (by decide) (by decide) (by decide) (by decide)
      (by decide) (by decide) (by decide) (by decide)).2.2.1,
   (register_same_name envC8 emptySt 0 1 .injectable .injectable
      .nothing .nothing (by decide) (by decide) (by decide) (by decide)
      (by decide) (by decide) (by decide) (by decide)).2.2.2.1⟩

/-- C6: a Lazy Handle's factory runs at most once.  If the handle is
unmaterialized and its factory (`resolve` of its target) succeeds on the
first operation routed through it, the handle memoizes that instance;
afterwards every operation routed through the handle — at any recursion
budget, including zero, at which an actual factory run would necessarily
fail — returns the same cached instance and leaves the whole container
state untouched, so the factory is never invoked again. -/
theorem lazy_factory_at_most_once (env : Env) (f pa tid : Nat) (s s₁ : St)
    (v : Nat)
    (hp : mapGet s.proxies pa = some ⟨tid, none⟩)
    (hres : resolve env f tid s = (s₁, .ok v)) :
    touchProxy env f pa s =
      ({ s₁ with proxies := mapSet pa ⟨tid, some v⟩ s₁.proxies }, .ok v) ∧
    ∀ (g : Nat) (s₂ : St), mapGet s₂.proxies pa = some ⟨tid, some v⟩ →
      touchProxy env g pa s₂ = (s₂, .ok v) := by
  constructor
  · simp [touchProxy, hp, hres]
  · intro g s₂ hp₂
    simp [touchProxy, hp₂]

/-- Witness for `lazy_factory_at_most_once`: the handle over `Thing`. -/
theorem lazy_factory_at_most_once_witness :
    (mapGet stC6.proxies 0 = some ⟨0, none⟩ ∧
     resolve envC6 1 0 stC6 = (stC6r, .ok 1) ∧
     mapGet stC6m.proxies 0 = some ⟨0, some 1⟩) ∧
    (touchProxy envC6 1 0 stC6 =
       ({ stC6r with proxies := mapSet 0 ⟨0, some 1⟩ stC6r.proxies }, .ok 1) ∧
     touchProxy envC6 0 0 stC6m = (stC6m, .ok 1)) :=
  ⟨⟨by decide, by decide, by decide⟩,
   (lazy_factory_at_most_once envC6 1 0 0 stC6 stC6r 1
      (by decide) (by decide)).1,
   (lazy_factory_at_most_once envC6 1 0 0 stC6 stC6r 1
      (by decide) (by decide)).2 0 stC6m (by decide)⟩

/-- C10: when the factory behind an unmaterialized Lazy Handle throws,
the touching operation propagates the error, the handle stays
unmaterialized and records no fault, and the next operation routed
through the handle runs the factory again — so once the cause is fixed
(for instance the missing class has been registered) a later touch
succeeds and materializes. -/
theorem lazy_factory_retry (env : Env) (f pa tid : Nat) (s s₁ : St) (e : Err)
    (hpa : pa < s.nextAddr)
    (hp : mapGet s.proxies pa = some ⟨tid, none⟩)
    (hres : resolve env f tid s = (s₁, .error e)) :
    touchProxy env f pa s = (s₁, .error e) ∧
    mapGet s₁.proxies pa = some ⟨tid, none⟩ ∧
    ∀ (g : Nat) (s₂ s₃ : St) (w : Nat),
      mapGet s₂.proxies pa = some ⟨tid, none⟩ →
      resolve env g tid s₂ = (s₃, .ok w) →
      touchProxy env g pa s₂ =
        ({ s₃ with proxies := mapSet pa ⟨tid, some w⟩ s₃.proxies }, .ok w) := by
  refine ⟨by simp [touchProxy, hp, hres], ?_, ?_⟩
  · have hf := resolve_frame env f tid s
    rw [hres] at hf
    rw [hf.proxies_lt pa hpa]
    exact hp
  · intro g s₂ s₃ w hp₂ hres₂
    simp [touchProxy, hp₂, hres₂]

/-- Witness for `lazy_factory_retry`: the handle over the initially
unregistered class `Missing`. -/
theorem lazy_factory_retry_witness :
    ((0 : Nat) < stC10.nextAddr ∧
     mapGet stC10.proxies 0 = some ⟨5, none⟩ ∧
     resolve envC6 1 5 stC10 = (stC10, .error (.notFound "Missing"))) ∧
    (touchProxy envC6 1 0 stC10 = (stC10, .error (.notFound "Missing")) ∧
     mapGet stC10.proxies 0 = some ⟨5, none⟩ ∧
     touchProxy envC6 1 0 stC10r =
       ({ stC10s with proxies := mapSet 0 ⟨5, some 1⟩ stC10s.proxies },
        .ok 1)) :=
  ⟨⟨by decide, by decide, by decide⟩,
   (lazy_factory_retry envC6 1 0 5 stC10 stC10 (.notFound "Missing")
      (by decide) (by decide) (by decide)).1,
   (lazy_factory_retry envC6 1 0 5 stC10 stC10 (.notFound "Missing")
      (by decide) (by decide) (by decide)).2.1,
   (lazy_factory_retry envC6 1 0 5 stC10 stC10 (.notFound "Missing")
      (by decide) (by decide) (by decide)).2.2 1 stC10r stC10s 1
      (by decide) (by decide)⟩

/-! ### The eager call-stack argument

`resolve` inserts a cache entry for `X` only when a call `resolve X`
completes successfully.  Nested `resolve X` calls can only arise along a
chain of eagerly-resolved slots leading from `X` back to `X`; any call
whose identity already sits on such a chain must fail, because the slot
that continues the chain fails one level deeper (ultimately by running
out of recursion budget).  The lemmas below formalize this and yield the
cache-atomicity of `resolve` on failure. -/

theorem headD_append (rest : List Nat) (T D : Nat) :
    headD (rest ++ [T]) D = headD rest T := by
  cases rest <;> rfl

theorem echain_extend (env : Env) : ∀ (st : List Nat) (T D : Nat),
    EChainTo env st T → eagerEdge env T D → EChainTo env (st ++ [T]) D := by
  intro st
  induction st with
  | nil =>
    intro T D _ hE
    exact ⟨hE, trivial⟩
  | cons Y rest ih =>
    intro T D h hE
    obtain ⟨h₁, h₂⟩ := h
    refine ⟨?_, ih T D h₂ hE⟩
    simp only [List.append_eq]
    rw [headD_append]
    exact h₁

theorem echain_self (env : Env) : ∀ (st : List Nat) (T : Nat),
    EChainTo env st T → T ∈ st →
    ∃ Z, eagerEdge env T Z ∧ (Z ∈ st ∨ Z = T) := by
  intro st
  induction st with
  | nil => intro T _ h; cases h
  | cons Y rest ih =>
    intro T hch hmem
    obtain ⟨h₁, h₂⟩ := hch
    rcases List.mem_cons.mp hmem with hYT | hT
    · subst hYT
      refine ⟨headD rest T, h₁, ?_⟩
      cases rest with
      | nil => right; rfl
      | cons Z rest' =>
        left
        exact List.mem_cons_of_mem _ (List.mem_cons_self _ _)
    · obtain ⟨Z, hZe, hZm⟩ := ih T h₂ hT
      exact ⟨Z, hZe, hZm.imp (fun h => List.mem_cons_of_mem _ h) id⟩

/-- The dependency walk, under a call stack `st ++ [T]` of identities
that form an eager chain and are all uncached: the walk keeps them
uncached, and if any eagerly-resolved slot targets an identity on the
stack, the walk fails. -/
theorem resolveDepsAux_stack (env : Env)
    (res : Nat → St → St × Except Err Nat)
    (hres : ∀ (st : List Nat) (T : Nat) (s s₁ : St) (r : Except Err Nat),
      EChainTo env st T → StackOK st s → res T s = (s₁, r) →
      StackOK st s₁ ∧ (T ∈ st → ∃ e, r = .error e))
    (T : Nat) :
    ∀ (ps : List Token) (decs : List (Option Token)) (st : List Nat)
      (s s₁ : St) (r : Except Err (List Slot)),
      EChainTo env st T →
      (∀ D, D ∈ eagerList env T ps decs → eagerEdge env T D) →
      StackOK (st ++ [T]) s →
      resolveDepsAux env res T ps decs s = (s₁, r) →
      StackOK (st ++ [T]) s₁ ∧
      ((∃ Z, Z ∈ eagerList env T ps decs ∧ Z ∈ st ++ [T]) →
        ∃ e, r = .error e) := by
  intro ps
  induction ps with
  | nil =>
    intro decs st s s₁ r _ _ hSok heq
    simp only [resolveDepsAux] at heq
    injection heq with h₁ h₂
    subst h₁
    refine ⟨hSok, ?_⟩
    rintro ⟨Z, hZ, _⟩
    simp [eagerList] at hZ
  | cons p ps' ih =>
    intro decs st s s₁ r hch hE hSok heq
    simp only [resolveDepsAux] at heq
    split at heq
    · next tid hst =>
      have hSok' : StackOK (st ++ [T])
          { s with proxies := mapSet s.nextAddr ⟨tid, none⟩ s.proxies,
                   nextAddr := s.nextAddr + 1 } :=
        fun Y hY => hSok Y hY
      have hE' : ∀ D, D ∈ eagerList env T ps' decs.tail → eagerEdge env T D := by
        intro D hD
        apply hE
        simp [eagerList, hst, hD]
      split at heq
      · next s₂ e heqd =>
        injection heq with h₁ h₂
        subst h₁; subst h₂
        have := ih decs.tail st _ s₂ (.error e) hch hE' hSok' heqd
        exact ⟨this.1, fun _ => ⟨e, rfl⟩⟩
      · next s₂ slots heqd =>
        injection heq with h₁ h₂
        subst h₁; subst h₂
        have hrec := ih decs.tail st _ s₂ (.ok slots) hch hE' hSok' heqd
        refine ⟨hrec.1, ?_⟩
        rintro ⟨Z, hZ, hZst⟩
        rw [show eagerList env T (p :: ps') decs =
            eagerList env T ps' decs.tail by simp [eagerList, hst]] at hZ
        obtain ⟨e, he⟩ := hrec.2 ⟨Z, hZ, hZst⟩
        cases he
    · next t hst =>
      have hmemt : t ∈ eagerList env T (p :: ps') decs := by
        simp [eagerList, hst]
      have hcht : EChainTo env (st ++ [T]) t :=
        echain_extend env st T t hch (hE t hmemt)
      split at heq
      · next s₂ e heqr =>
        injection heq with h₁ h₂
        subst h₁; subst h₂
        have hcall := hres (st ++ [T]) t s s₂ (.error e) hcht hSok heqr
        exact ⟨hcall.1, fun _ => ⟨e, rfl⟩⟩
      · next s₂ a heqr =>
        have hcall := hres (st ++ [T]) t s s₂ (.ok a) hcht hSok heqr
        have hE' : ∀ D, D ∈ eagerList env T ps' decs.tail →
            eagerEdge env T D := by
          intro D hD
          apply hE
          simp [eagerList, hst, hD]
        split at heq
        · next s₃ e heqd =>
          injection heq with h₁ h₂
          subst h₁; subst h₂
          have := ih decs.tail st s₂ s₃ (.error e) hch hE' hcall.1 heqd
          exact ⟨this.1, fun _ => ⟨e, rfl⟩⟩
        · next s₃ slots heqd =>
          injection heq with h₁ h₂
          subst h₁; subst h₂
          have hrec := ih decs.tail st s₂ s₃ (.ok slots) hch hE' hcall.1 heqd
          refine ⟨hrec.1, ?_⟩
          rintro ⟨Z, hZ, hZst⟩
          rw [show eagerList env T (p :: ps') decs =
              t :: eagerList env T ps' decs.tail by
                simp [eagerList, hst]] at hZ
          rcases List.mem_cons.mp hZ with hZt | hZtail
          · subst hZt
            obtain ⟨e, he⟩ := hcall.2 hZst
            cases he
          · obtain ⟨e, he⟩ := hrec.2 ⟨Z, hZtail, hZst⟩
            cases he

/-- The call-stack property of `resolve`: under a stack `st` forming an
eager chain to `T` whose members are uncached, a call `resolve T` keeps
the stack members uncached, fails whenever `T` itself sits on the stack,
and, when it fails, leaves `T` uncached if it was uncached. -/
theorem resolve_stack (env : Env) : ∀ (fuel : Nat) (st : List Nat)
    (T : Nat) (s s₁ : St) (r : Except Err Nat),
    EChainTo env st T → StackOK st s → resolve env fuel T s = (s₁, r) →
    StackOK st s₁ ∧ (T ∈ st → ∃ e, r = .error e) ∧
    (mapGet s.instances T = none → (∃ e, r = .error e) →
      mapGet s₁.instances T = none) := by
  intro fuel
  induction fuel with
  | zero =>
    intro st T s s₁ r _ hSok heq
    simp only [resolve] at heq
    injection heq with h₁ h₂
    subst h₁; subst h₂
    exact ⟨hSok, fun _ => ⟨.fuelOut, rfl⟩, fun h _ => h⟩
  | succ f ih =>
    intro st T s s₁ r hch hSok heq
    simp only [resolve] at heq
    split at heq
    · next addr hinst =>
      injection heq with h₁ h₂
      subst h₁; subst h₂
      refine ⟨hSok, ?_, ?_⟩
      · intro hT
        rw [hSok T hT] at hinst
        cases hinst
      · rintro _ ⟨e, he⟩
        cases he
    · next hinst =>
      split at heq
      · next hmeta =>
        injection heq with h₁ h₂
        subst h₁; subst h₂
        exact ⟨hSok, fun _ => ⟨_, rfl⟩, fun h _ => h⟩
      · next m hmeta =>
        have hSok' : StackOK (st ++ [T]) s := by
          intro Y hY
          rcases List.mem_append.mp hY with h | h
          · exact hSok Y h
          · rw [List.mem_singleton.mp h]
            exact hinst
        have hres' : ∀ (st₀ : List Nat) (T₀ : Nat) (s₀ s₂ : St)
            (r₀ : Except Err Nat), EChainTo env st₀ T₀ → StackOK st₀ s₀ →
            resolve env f T₀ s₀ = (s₂, r₀) →
            StackOK st₀ s₂ ∧ (T₀ ∈ st₀ → ∃ e, r₀ = .error e) :=
          fun st₀ T₀ s₀ s₂ r₀ hc hs he =>
            ⟨(ih st₀ T₀ s₀ s₂ r₀ hc hs he).1,
             (ih st₀ T₀ s₀ s₂ r₀ hc hs he).2.1⟩
        have hEfull : ∀ D, D ∈ eagerList env T (env T).paramTypes
            (env T).paramDecorators → eagerEdge env T D := fun D h => h
        split at heq
        · next s₂ e heqd =>
          injection heq with h₁ h₂
          subst h₁; subst h₂
          have hdeps := resolveDepsAux_stack env (resolve env f) hres' T
            (env T).paramTypes (env T).paramDecorators st s s₂ (.error e)
            hch hEfull hSok' heqd
          refine ⟨?_, fun _ => ⟨e, rfl⟩, ?_⟩
          · intro Y hY
            exact hdeps.1 Y (List.mem_append_left _ hY)
          · intro _ _
            exact hdeps.1 T (List.mem_append_right _ (List.mem_singleton_self T))
        · next s₂ slots heqd =>
          have hdeps := resolveDepsAux_stack env (resolve env f) hres' T
            (env T).paramTypes (env T).paramDecorators st s s₂ (.ok slots)
            hch hEfull hSok' heqd
          split at heq
          · next hthrows =>
            injection heq with h₁ h₂
            subst h₁; subst h₂
            refine ⟨?_, fun _ => ⟨_, rfl⟩, ?_⟩
            · intro Y hY
              exact hdeps.1 Y (List.mem_append_left _ hY)
            · intro _ _
              exact hdeps.1 T
                (List.mem_append_right _ (List.mem_singleton_self T))
          · next hthrows =>
            injection heq with h₁ h₂
            subst h₁; subst h₂
            have hTst : T ∉ st := by
              intro hT
              obtain ⟨Z, hZe, hZm⟩ := echain_self env st T hch hT
              have hZst : Z ∈ st ++ [T] := by
                rcases hZm with h | h
                · exact List.mem_append_left _ h
                · rw [h]
                  exact List.mem_append_right _ (List.mem_singleton_self T)
              obtain ⟨e, he⟩ := hdeps.2 ⟨Z, hZe, hZst⟩
              cases he
            refine ⟨?_, fun hT => absurd hT hTst, ?_⟩
            · intro Y hY
              have hYT : Y ≠ T := fun hEq => hTst (hEq ▸ hY)
              show mapGet (mapSet T s₂.nextAddr s₂.instances) Y = none
              rw [mapGet_mapSet_ne _ _ hYT]
              exact hdeps.1 Y (List.mem_append_left _ hY)
            · rintro _ ⟨e, he⟩
              cases he

/-- C9: `resolve` is atomic on the instance cache for the requested
identity.  Whenever `resolve X` throws — because `X` is unregistered,
because eagerly resolving one of its dependencies throws, because the
constructor throws, or because the recursion budget runs out — no cache
entry for `X` is left behind, so a later `resolve X` (after the cause is
fixed) constructs `X` normally instead of returning a partial
instance. -/
theorem resolve_error_no_cache (env : Env) (fuel X : Nat) (s s₁ : St)
    (e : Err) (hiX : mapGet s.instances X = none)
    (h : resolve env fuel X s = (s₁, .error e)) :
    mapGet s₁.instances X = none :=
  (resolve_stack env fuel [] X s s₁ (.error e) trivial
    (fun Y hY => absurd hY (List.not_mem_nil Y)) h).2.2 hiX ⟨e, rfl⟩

/-- Witness for `resolve_error_no_cache`: `Broken` depends on the
unregistered identity `5`, so resolving it fails eagerly; `Broken`
remains uncached. -/
theorem resolve_error_no_cache_witness :
    (mapGet stW.instances 3 = none ∧
     resolve envW 2 3 stW = (stW, .error (.notFound "Ghost"))) ∧
    mapGet stW.instances 3 = none :=
  ⟨⟨by decide, by decide⟩,
   resolve_error_no_cache envW 2 3 stW stW (.notFound "Ghost")
     (by decide) (by decide)⟩

end Titan
